import Mathlib

/-
Verification development for the liquid template engine (etecs-ru/liquid).

Shallow embedding of:
  values/convert.go        (value conversion, restricted to the bool and int targets)
  expressions/config.go, expressions/undefined.go, expressions/variables.go
                           (undefined-variable / undefined-filter policies)
  parser parseTokens       (the structural parser)
  the lexical scanner, the tag grammar and the compile phase are modelled
  from the specification, since only their tests appear in the sources.

Go machine integers do not matter here: the converted integers in scope are
small and overflow-free, so Int stands in for int64.  Go panics are modelled
as Except.error values carrying the panic payload message.
-/

namespace values

/-- The dynamic (interface-typed) values the conversion routines receive.
Modelled from the spec: the concrete Go value universe exercised by
values/convert.go; ToLiquid is the identity on every variant here because no
Convertible wrapper is modelled.  The composite variant is a string slice,
standing in for the slice values the tests convert. -/
inductive GoValue where
  | nil
  | bool (b : Bool)
  | int (n : Int)
  | float (q : Rat)
  | str (s : String)
  | list (xs : List String)
deriving DecidableEq, Repr

/-- The reflect target kinds the claims exercise (convert.go lines 158-190). -/
inductive GoTy where
  | bool
  | int
deriving DecidableEq, Repr

/-- Go reflect ConvertibleTo for the modelled value/target kinds: a bool is
convertible only to bool; ints and floats are convertible to int; nothing
else among the modelled kinds converts via reflection. -/
def convertibleTo : GoValue → GoTy → Bool
  | .bool _, .bool => true
  | .int _, .int => true
  | .float _, .int => true
  | _, _ => false

/-- Go rv.Convert(typ) on the kinds convertibleTo admits; float-to-int
truncates toward zero, as Go conversion does. -/
def reflectConvert : GoValue → GoTy → GoValue
  | .bool b, .bool => .bool b
  | .int n, .int => .int n
  | .float q, .int => .int (Int.tdiv q.num q.den)
  | v, _ => v

/-- The %T type name used in conversion error messages. -/
def goTypeName : GoValue → String
  | .nil => "<nil>"
  | .bool _ => "bool"
  | .int _ => "int"
  | .float _ => "float64"
  | .str _ => "string"
  | .list _ => "[]interface \x7b\x7d"

def tyName : GoTy → String
  | .bool => "bool"
  | .int => "int"

/-- conversionError (convert.go line 26): the %v rendering of the value is
elided; the parts the tests inspect (the %T source type and the target type
name) are kept. -/
def conversionError (v : GoValue) (t : GoTy) : String :=
  "can't convert " ++ goTypeName v ++ " to type " ++ tyName t

/-- strconv.ParseInt base 10: optional sign then decimal digits. -/
def goParseInt (s : String) : Option Int :=
  let cs := s.data
  let (neg, ds) :=
    match cs with
    | '-' :: rest => (true, rest)
    | '+' :: rest => (false, rest)
    | _ => (false, cs)
  if ds = [] ∨ ¬ ds.all Char.isDigit then none
  else
    let n : Nat := ds.foldl (fun acc c => acc * 10 + (c.toNat - 48)) 0
    some (if neg then -(n : Int) else (n : Int))

/-- convertValueToInt (convert.go lines 37-59); the json.Number case is not
modelled (json.Number values are outside the modelled universe). -/
def convertValueToInt (v : GoValue) (t : GoTy) : Except String Int :=
  match v with
  | .bool b => if b then .ok 1 else .ok 0
  | .str s =>
    match goParseInt s with
    | some n => .ok n
    | none => .error (conversionError v t)
  | _ => .error (conversionError v t)

/-- Convert (convert.go lines 141-190), restricted to the bool and int
targets.  The leading guard mirrors line 145: the String-kind exclusion is
vacuous for these targets, so the guard is the nil check plus reflect
convertibility.  The timeType / numberType special cases do not apply to
these targets. -/
def Convert (v : GoValue) (t : GoTy) : Except String GoValue :=
  if v ≠ .nil ∧ convertibleTo v t then
    .ok (reflectConvert v t)
  else
    match t with
    | .bool =>
      -- line 160: return !(value == nil || value == false), nil
      if v = .nil ∨ v = .bool false then .ok (.bool false) else .ok (.bool true)
    | .int =>
      -- lines 176-178
      match convertValueToInt v t with
      | .ok n => .ok (.int n)
      | .error e => .error e

end values

namespace expressions

/-- UndefinedVariable (variables.go lines 6-10): an error that the named
variable is not defined. -/
structure UndefinedVariable where
  name : String
deriving DecidableEq, Repr

/-- UndefinedVariable.Error (variables.go): fmt.Sprintf with a %q verb. -/
def UndefinedVariable.errorMsg (e : UndefinedVariable) : String :=
  "undefined variable \"" ++ e.name ++ "\""

/-- UndefinedFilter: the panic payload for a missing filter.  Its Error
method is declared outside the available sources; only its identity is
needed here. -/
structure UndefinedFilter where
  name : String
deriving DecidableEq, Repr

/-- A filter value: dynamic function from values to values (the modelled
shape; argument adaptation is out of scope for the claims). -/
def Filter := values.GoValue → values.GoValue

/-- identityFilter (undefined.go lines 24-26). -/
def identityFilter : Filter := fun i => i

/-- The strict/lax policy singletons (undefined.go).  Go panics are modelled
as Except.error carrying the panic payload. -/
inductive Mode where
  | strictMode
  | laxMode
deriving DecidableEq, Repr

/-- StrictMode.OnUndefinedFilter panics with UndefinedFilter(name);
LaxMode.OnUndefinedFilter returns identityFilter (undefined.go lines 14-31). -/
def onUndefinedFilter : Mode → String → Except UndefinedFilter Filter
  | .strictMode, name => .error ⟨name⟩
  | .laxMode, _ => .ok identityFilter

/-- StrictMode.OnUndefinedVariable panics with UndefinedVariable(name);
LaxMode.OnUndefinedVariable returns nil (undefined.go lines 19-36). -/
def onUndefinedVariable : Mode → String → Except UndefinedVariable values.GoValue
  | .strictMode, name => .error ⟨name⟩
  | .laxMode, _ => .ok .nil

/-- expressions.Config (config.go lines 3-9).  The filters map is a partial
function from names to filter values. -/
structure Config where
  filters : String → Option Filter
  FilterErrorMode : Mode
  VariableErrorMode : Mode

/-- NewConfig (config.go lines 11-17): strict filters, lax variables, and a
zero-valued (empty) filters map. -/
def NewConfig : Config :=
  { filters := fun _ => none
    FilterErrorMode := .strictMode
    VariableErrorMode := .laxMode }

/-- Config.GetFilter (config.go lines 19-24). -/
def Config.GetFilter (c : Config) (name : String) : Except UndefinedFilter Filter :=
  match c.filters name with
  | some val => .ok val
  | none => onUndefinedFilter c.FilterErrorMode name

/-- Variable bindings (map[string]interface\x7b\x7d), as a partial function. -/
def Bindings := String → Option values.GoValue

/-- Config.GetVariable (config.go lines 26-31). -/
def Config.GetVariable (c : Config) (bindings : Bindings) (name : String) :
    Except UndefinedVariable values.GoValue :=
  match bindings name with
  | some val => .ok val
  | none => onUndefinedVariable c.VariableErrorMode name

end expressions

/-- Substring containment on strings, used to state what an error message
names. -/
def strContains (hay needle : String) : Bool :=
  hay.data.tails.any (fun t => needle.data.isPrefixOf t)

namespace parser

/-- Token types (scanner declarations; fields per spec section 3 and the
scanner tests). -/
inductive TokenType where
  | text
  | tag
  | obj
deriving DecidableEq, Repr

/-- Modelled from the spec: the Token structure produced by the scanner,
whose Go declaration is outside the available sources; fields follow spec
section 3 and the assertions of TestScan.  SourceLoc is not tracked. -/
structure Token where
  type : TokenType
  name : String
  args : String
  source : String
  trimLeft : Bool
  trimRight : Bool
deriving DecidableEq, Repr

/-- Modelled from the spec: a BlockSyntax grammar entry, whose Go
implementation is outside the available sources; the fields are exactly the
queries parseTokens makes of it (spec sections 3 and 4.3). -/
structure BlockSyntax where
  tagName : String
  isBlockStart : Bool
  isClause : Bool
  isBlockEnd : Bool
  requiresParent : Bool
  parentTags : List String
deriving DecidableEq, Repr

/-- Modelled from the spec: CanHaveParent holds when the proposed parent's
tag name is among the declared parent tags (spec section 3: parent-tag
constraints). -/
def BlockSyntax.canHaveParent (cs : BlockSyntax) (parent : BlockSyntax) : Bool :=
  cs.parentTags.contains parent.tagName

/-- A Grammar maps tag names to block syntax entries (spec section 3);
names not registered as blocks yield none. -/
def Grammar := String → Option BlockSyntax

/-- Modelled from the spec: the AST node variants of section 3.  A Block
carries its main body and an ordered list of clauses, each a clause token
with its body. -/
inductive ASTNode where
  | seq (children : List ASTNode)
  | text (tok : Token)
  | object (tok : Token) (expr : String)
  | tag (tok : Token)
  | block (tok : Token) (body : List ASTNode) (clauses : List (Token × List ASTNode))
  | raw (slices : List String)

/-- The block node under construction.  In the Go code the ASTBlock is
appended into the parent list by pointer at push time and its Body/Clauses
are filled in place; here the open block is held out of the parent list
until its end tag pops it, which yields the same finished tree.  While
curClause is none, the accumulating list of the parser state is the block's
main body; once a clause opens, body holds the frozen main body, clauses
the finished clauses, and the state's accumulating list is the body of the
clause named by curClause. -/
structure OpenBlock where
  tok : Token
  body : List ASTNode
  clauses : List (Token × List ASTNode)
  curClause : Option Token

/-- A stack frame of parseTokens (part_000 lines 185-189): the saved block
syntax, the saved open block, and the saved insertion list that the Go code
keeps as the pointer ap. -/
structure Frame where
  syn : Option BlockSyntax
  node : Option OpenBlock
  savedAcc : List ASTNode

/-- The mutable state of parseTokens (part_000 lines 190-200).  acc is the
list the insertion pointer ap points into; rawTag holds the slices of the
current raw node (the node itself is emitted when raw mode closes, or at
end of input while still in raw mode, which places it at the same position
the Go code does since raw mode lets nothing else reach acc). -/
structure PState where
  acc : List ASTNode
  sd : Option BlockSyntax
  bn : Option OpenBlock
  stack : List Frame
  rawTag : Option (List String)
  inComment : Bool
  inRaw : Bool

/-- The initial parser state. -/
def initState : PState :=
  { acc := [], sd := none, bn := none, stack := [], rawTag := none
    inComment := false, inRaw := false }

/-- Parser configuration: the grammar plus the expression parser that
object tokens run their Args through (expressions.Parse, whose
implementation is outside the available sources, is abstracted as a
function producing either a parsed representation or an error message). -/
structure Config where
  grammar : Grammar
  parseExpr : String → Except String String

/-- Finish the open block into an ASTBlock node, given the accumulating
list that holds its currently-filling section. -/
def closeBlock (pb : OpenBlock) (acc : List ASTNode) : ASTNode :=
  match pb.curClause with
  | none => .block pb.tok acc pb.clauses
  | some ct => .block pb.tok pb.body (pb.clauses ++ [(ct, acc)])

/-- Comment-mode arm of the token loop (part_000 lines 207-209): only an
endcomment tag leaves comment mode; every other token is discarded. -/
def stepComment (s : PState) (tok : Token) : Except String PState :=
  if tok.type = .tag ∧ tok.name = "endcomment" then
    .ok { s with inComment := false }
  else .ok s

/-- Raw-mode arm (part_000 lines 211-216): an endraw tag leaves raw mode
(emitting the collected Raw node, which the Go code had appended in place
at raw open); any other token appends its raw source to the slices, under
the same non-nil guard the Go code has. -/
def stepRaw (s : PState) (tok : Token) : Except String PState :=
  if tok.type = .tag ∧ tok.name = "endraw" then
    match s.rawTag with
    | some slices => .ok { s with inRaw := false, acc := s.acc ++ [.raw slices] }
    | none => .ok { s with inRaw := false }
  else
    match s.rawTag with
    | some slices => .ok { s with rawTag := some (slices ++ [tok.source]) }
    | none => .ok s

/-- Object-token arm (part_000 lines 217-222). -/
def stepObj (cfg : Config) (s : PState) (tok : Token) : Except String PState :=
  match cfg.parseExpr tok.args with
  | .error e => .error e
  | .ok expr => .ok { s with acc := s.acc ++ [.object tok expr] }

/-- Clause arm (part_000 lines 248-251).  Go dereferences the active block
node here and would panic on nil; the panic is modelled as an error. -/
def stepClause (s : PState) (tok : Token) : Except String PState :=
  match s.bn with
  | none => .error ("panic: clause " ++ tok.name ++ " with no open block")
  | some pb =>
    match pb.curClause with
    | none =>
      .ok { s with bn := some ⟨pb.tok, s.acc, pb.clauses, some tok⟩, acc := [] }
    | some ct =>
      .ok { s with
        bn := some ⟨pb.tok, pb.body, pb.clauses ++ [(ct, s.acc)], some tok⟩
        acc := [] }

/-- Block-end arm (part_000 lines 252-258): pop; Go indexes the stack and
would panic when it is empty. -/
def stepBlockEnd (s : PState) (tok : Token) : Except String PState :=
  match s.stack with
  | [] => .error ("panic: block end " ++ tok.name ++ " with empty stack")
  | f :: rest =>
    match s.bn with
    | none => .error ("panic: block end " ++ tok.name ++ " with no open block")
    | some pb =>
      .ok { s with
        sd := f.syn, bn := f.node, stack := rest
        acc := f.savedAcc ++ [closeBlock pb s.acc] }

/-- Registered-tag arm (part_000 lines 226-261), in the Go case order:
comment, raw, the required-parent check (lines 234-239), block start
(push, lines 240-247), clause, block end, and the default panic. -/
def stepKnownTag (s : PState) (tok : Token) (cs : BlockSyntax) : Except String PState :=
  if tok.name = "comment" then
    .ok { s with inComment := true }
  else if tok.name = "raw" then
    .ok { s with inRaw := true, rawTag := some [] }
  else if cs.requiresParent &&
      (match s.sd with | none => true | some sd1 => ! cs.canHaveParent sd1) then
    let suffix :=
      match s.sd with
      | none => ""
      | some sd1 => "; immediate parent is " ++ sd1.tagName
    .error (tok.name ++ " not inside " ++
      String.intercalate " or " cs.parentTags ++ suffix)
  else if cs.isBlockStart then
    .ok { s with
      stack := ⟨s.sd, s.bn, s.acc⟩ :: s.stack
      sd := some cs
      bn := some ⟨tok, [], [], none⟩
      acc := [] }
  else if cs.isClause then
    stepClause s tok
  else if cs.isBlockEnd then
    stepBlockEnd s tok
  else
    .error ("panic: block type " ++ tok.name)

/-- One iteration of the token loop of parseTokens (part_000 lines
201-265), dispatching to the arms above in the Go switch order; a tag
token with an unregistered name appends a plain Tag node (lines 262-264). -/
def step (cfg : Config) (s : PState) (tok : Token) : Except String PState :=
  if s.inComment then
    stepComment s tok
  else if s.inRaw then
    stepRaw s tok
  else if tok.type = .obj then
    stepObj cfg s tok
  else if tok.type = .text then
    .ok { s with acc := s.acc ++ [.text tok] }
  else
    -- tok.type = .tag: the remaining token type
    match cfg.grammar tok.name with
    | some cs => stepKnownTag s tok cs
    | none => .ok { s with acc := s.acc ++ [.tag tok] }

/-- Run the token loop from a given state. -/
def runTokens (cfg : Config) (s : PState) : List Token → Except String PState
  | [] => .ok s
  | t :: ts =>
    match step cfg s t with
    | .error e => .error e
    | .ok s1 => runTokens cfg s1 ts

/-- The end-of-loop check and result of parseTokens (part_000 lines
267-270), plus the pending raw node when input ended inside raw mode (the
Go code placed that node in the tree when raw mode opened). -/
def finishParse (s : PState) : Except String ASTNode :=
  match s.bn with
  | some pb => .error ("unterminated \"" ++ pb.tok.name ++ "\" block")
  | none =>
    let trailer :=
      if s.inRaw then
        match s.rawTag with
        | some slices => [ASTNode.raw slices]
        | none => []
      else []
    .ok (.seq (s.acc ++ trailer))

/-- Config.parseTokens (part_000 lines 183-271). -/
def Config.parseTokens (cfg : Config) (tokens : List Token) : Except String ASTNode :=
  match runTokens cfg initState tokens with
  | .error e => .error e
  | .ok s => finishParse s

/-- The four delimiter marker strings (spec sections 4.1 and 6). -/
structure Delims where
  objLeft : String
  objRight : String
  tagLeft : String
  tagRight : String
deriving DecidableEq, Repr

/-- The default delimiter set. -/
def defaultDelims : Delims :=
  { objLeft := "\x7b\x7b", objRight := "\x7d\x7d"
    tagLeft := "\x7b%", tagRight := "%\x7d" }

/-- Index of the first occurrence of either left marker, with which kind
matched there (object checked first at a given position). -/
def findLeftMarker (objL tagL : List Char) : List Char → Option (Nat × TokenType)
  | [] => none
  | c :: rest =>
    if objL.isPrefixOf (c :: rest) then some (0, .obj)
    else if tagL.isPrefixOf (c :: rest) then some (0, .tag)
    else
      match findLeftMarker objL tagL rest with
      | some (i, k) => some (i + 1, k)
      | none => none

/-- Index of the first occurrence of a marker string. -/
def findSub (needle : List Char) : List Char → Option Nat
  | [] => if needle = [] then some 0 else none
  | c :: rest =>
    if needle.isPrefixOf (c :: rest) then some 0
    else
      match findSub needle rest with
      | some i => some (i + 1)
      | none => none

def isWs (c : Char) : Bool :=
  c = ' ' ∨ c = '\t' ∨ c = '\n' ∨ c = '\r'

/-- Trim surrounding whitespace. -/
def trimWs (cs : List Char) : List Char :=
  ((cs.dropWhile isWs).reverse.dropWhile isWs).reverse

/-- A Text token covering the given characters verbatim. -/
def textToken (cs : List Char) : Token :=
  { type := .text, name := "", args := "", source := ⟨cs⟩
    trimLeft := false, trimRight := false }

/-- Build a tag or object token from the interior between the markers
(after the optional trim dashes were stripped): the whole trimmed interior
is Args for an object; for a tag the first whitespace-delimited word is
Name and the trimmed remainder is Args (spec section 4.1). -/
def makeToken (kind : TokenType) (interior : List Char) (src : List Char)
    (tl tr : Bool) : Token :=
  let t := trimWs interior
  match kind with
  | .tag =>
    let nm := t.takeWhile (fun c => ! isWs c)
    let rest := trimWs (t.drop nm.length)
    { type := .tag, name := ⟨nm⟩, args := ⟨rest⟩, source := ⟨src⟩
      trimLeft := tl, trimRight := tr }
  | _ =>
    { type := .obj, name := "", args := ⟨t⟩, source := ⟨src⟩
      trimLeft := tl, trimRight := tr }

/-- Modelled from the spec: one scanning step plus recursion on the rest of
the source (spec section 4.1 algorithm).  Scan's Go implementation is
outside the available sources; this follows the spec: find the nearest left
marker, emit any preceding text verbatim (empty text suppressed), scan to
the matching right marker stripping trim dashes, and recurse after it.  A
left marker with no matching right marker treats the remainder as literal
text (the policy choice spec section 9 leaves open; no claim exercises it).
Fuel bounds the recursion; source length suffices since nonempty markers
force progress. -/
def scanAux (d : Delims) : Nat → List Char → List Token
  | 0, cs => if cs = [] then [] else [textToken cs]
  | fuel + 1, cs =>
    match findLeftMarker d.objLeft.data d.tagLeft.data cs with
    | none => if cs = [] then [] else [textToken cs]
    | some (i, kind) =>
      let pre := cs.take i
      let leftLen := if kind = .obj then d.objLeft.data.length else d.tagLeft.data.length
      let rightM := if kind = .obj then d.objRight.data else d.tagRight.data
      let afterLeft := cs.drop (i + leftLen)
      let (tl, body) :=
        match afterLeft with
        | '-' :: rest => (true, rest)
        | _ => (false, afterLeft)
      match findSub rightM body with
      | none =>
        (if pre = [] then [] else [textToken pre]) ++ [textToken (cs.drop i)]
      | some j =>
        let interiorRaw := body.take j
        let after := body.drop (j + rightM.length)
        let (tr, interior) :=
          match interiorRaw.reverse with
          | '-' :: rest => (true, rest.reverse)
          | _ => (false, interiorRaw)
        let srcLen := leftLen + (if tl then 1 else 0) + j + rightM.length
        let tok := makeToken kind interior ((cs.drop i).take srcLen) tl tr
        (if pre = [] then [] else [textToken pre]) ++ tok :: scanAux d fuel after

/-- Modelled from the spec: Scan (spec sections 4.1 and 6).  A 4-element
delimiter override list fully replaces the defaults; any other list (nil
included) selects the defaults.  Source locations are not tracked. -/
def Scan (source : String) (delims : List String) : List Token :=
  let d : Delims :=
    match delims with
    | [a, b, c, e] => ⟨a, b, c, e⟩
    | _ => defaultDelims
  scanAux d (source.data.length + 1) source.data

/-- Modelled from the spec: the grammar built by the standard tag
registrations (tags AddStandardTags, part_002), whose Grammar
implementation is outside the available sources.  Block starts and their
end tags are registered; each clause and end tag requires its block-start
parents; plain tags (assign, include, ...) are not blocks and yield none. -/
def stdGrammar : Grammar := fun name =>
  match name with
  | "capture" => some ⟨"capture", true, false, false, false, []⟩
  | "endcapture" => some ⟨"endcapture", false, false, true, true, ["capture"]⟩
  | "case" => some ⟨"case", true, false, false, false, []⟩
  | "endcase" => some ⟨"endcase", false, false, true, true, ["case"]⟩
  | "when" => some ⟨"when", false, true, false, true, ["case"]⟩
  | "else" => some ⟨"else", false, true, false, true, ["case", "if", "unless"]⟩
  | "elsif" => some ⟨"elsif", false, true, false, true, ["if", "unless"]⟩
  | "comment" => some ⟨"comment", true, false, false, false, []⟩
  | "endcomment" => some ⟨"endcomment", false, false, true, true, ["comment"]⟩
  | "for" => some ⟨"for", true, false, false, false, []⟩
  | "endfor" => some ⟨"endfor", false, false, true, true, ["for"]⟩
  | "if" => some ⟨"if", true, false, false, false, []⟩
  | "endif" => some ⟨"endif", false, false, true, true, ["if"]⟩
  | "raw" => some ⟨"raw", true, false, false, false, []⟩
  | "endraw" => some ⟨"endraw", false, false, true, true, ["raw"]⟩
  | "tablerow" => some ⟨"tablerow", true, false, false, false, []⟩
  | "endtablerow" => some ⟨"endtablerow", false, false, true, true, ["tablerow"]⟩
  | "unless" => some ⟨"unless", true, false, false, false, []⟩
  | "endunless" => some ⟨"endunless", false, false, true, true, ["unless"]⟩
  | _ => none

/-- A parser configuration over the standard grammar whose expression
parser accepts every argument string unchanged. -/
def stdConfig : Config :=
  { grammar := stdGrammar, parseExpr := fun s => .ok s }

/-- A tag token with the given name and arguments and a canonical source. -/
def tagTok (name args : String) : Token :=
  { type := .tag, name := name, args := args
    source := "\x7b% " ++ name ++ " " ++ args ++ " %\x7d"
    trimLeft := false, trimRight := false }

/-- A text token with the given source text. -/
def textTok (src : String) : Token :=
  { type := .text, name := "", args := "", source := src
    trimLeft := false, trimRight := false }

/-- A compiler registration: none for an unregistered tag name; a
registered compiler callback either succeeds or reports its own error
(render compiler_test.go: the error_block compiler). -/
def CompilerReg := String → Option (Except String Unit)

mutual

/-- Modelled from the spec: the compile phase (spec sections 4.4 and 7),
whose implementation is outside the available sources (only
render/compiler_test.go appears).  Compilation walks the tree once; a Tag
or Block node whose name has no registered compiler is an "undefined tag"
compile error; a compiler callback's own error propagates; any error
aborts compilation of the whole template. -/
def compileAST (reg : CompilerReg) : ASTNode → Except String Unit
  | .text _ => .ok ()
  | .object _ _ => .ok ()
  | .raw _ => .ok ()
  | .tag t =>
    match reg t.name with
    | none => .error ("undefined tag \"" ++ t.name ++ "\"")
    | some r => r
  | .seq children => compileList reg children
  | .block t body clauses =>
    match reg t.name with
    | none => .error ("undefined tag \"" ++ t.name ++ "\"")
    | some r =>
      match r with
      | .error e => .error e
      | .ok _ =>
        match compileList reg body with
        | .error e => .error e
        | .ok _ => compileClauses reg clauses

def compileList (reg : CompilerReg) : List ASTNode → Except String Unit
  | [] => .ok ()
  | n :: rest =>
    match compileAST reg n with
    | .error e => .error e
    | .ok _ => compileList reg rest

def compileClauses (reg : CompilerReg) : List (Token × List ASTNode) → Except String Unit
  | [] => .ok ()
  | (_, body) :: rest =>
    match compileList reg body with
    | .error e => .error e
    | .ok _ => compileClauses reg rest

end

/-- Stack well-formedness: whenever the frame stack is nonempty, the active
block node is set, and the same holds under each saved frame.  This is the
invariant that lets the end-of-input check (part_000 line 267) test only
the active block node. -/
def okStack : List Frame → Option OpenBlock → Prop
  | [], _ => True
  | f :: rest, bn => bn.isSome ∧ okStack rest f.node

end parser

/-! ## Helper lemmas -/

theorem strContains_characterization (hay needle : String) :
    strContains hay needle = true ↔ needle.data <:+: hay.data := by
  unfold strContains
  rw [List.any_eq_true]
  constructor
  · rintro ⟨t, ht, hp⟩
    rw [List.mem_tails] at ht
    rw [List.isPrefixOf_iff_prefix] at hp
    exact List.infix_iff_prefix_suffix.mpr ⟨t, hp, ht⟩
  · intro h
    obtain ⟨t, hp, ht⟩ := List.infix_iff_prefix_suffix.mp h
    exact ⟨t, (List.mem_tails t hay.data).mpr ht, List.isPrefixOf_iff_prefix.mpr hp⟩

theorem strContains_of_parts (hay needle pre post : String)
    (h : pre.data ++ needle.data ++ post.data = hay.data) :
    strContains hay needle = true := by
  rw [strContains_characterization]
  exact ⟨pre.data, post.data, h⟩

/-! ## Claim theorems -/

/-- C10: conversion of any value to the boolean target type always
succeeds, and yields false exactly when the value is nil or the boolean
false; every other value (the integer 0 and the empty string included)
yields true. -/
theorem convert_bool_total_iff (v : values.GoValue) :
    ∃ b : Bool, values.Convert v .bool = .ok (.bool b) ∧
      (b = false ↔ (v = .nil ∨ v = .bool false)) := by
  cases v with
  | nil => exact ⟨false, by simp [values.Convert, values.convertibleTo], by simp⟩
  | bool b =>
    refine ⟨b, ?_, ?_⟩
    · cases b <;> simp [values.Convert, values.convertibleTo, values.reflectConvert]
    · cases b <;> simp
  | int n =>
    refine ⟨true, ?_, by simp⟩
    simp [values.Convert, values.convertibleTo]
  | float q =>
    refine ⟨true, ?_, by simp⟩
    simp [values.Convert, values.convertibleTo]
  | str s =>
    refine ⟨true, ?_, by simp⟩
    simp [values.Convert, values.convertibleTo]
  | list xs =>
    refine ⟨true, ?_, by simp⟩
    simp [values.Convert, values.convertibleTo]

/-- C5: looking up a variable name unbound in the bindings fails under the
strict policy with an error whose message contains "undefined variable" and
the missing name, and succeeds under the lax policy with the neutral absent
value nil. -/
theorem getVariable_undefined_policy (c : expressions.Config)
    (bnd : expressions.Bindings) (name : String) (h : bnd name = none) :
    (c.VariableErrorMode = .strictMode →
      c.GetVariable bnd name = .error ⟨name⟩ ∧
      strContains (expressions.UndefinedVariable.errorMsg ⟨name⟩)
        "undefined variable" = true ∧
      strContains (expressions.UndefinedVariable.errorMsg ⟨name⟩) name = true) ∧
    (c.VariableErrorMode = .laxMode →
      c.GetVariable bnd name = .ok .nil) := by
  constructor
  · intro hm
    refine ⟨?_, ?_, ?_⟩
    · unfold expressions.Config.GetVariable
      rw [h, hm]
      rfl
    · apply strContains_of_parts _ _ "" (" \"" ++ name ++ "\"")
      show [] ++ _ ++ _ = _
      simp [expressions.UndefinedVariable.errorMsg, String.data_append]
    · apply strContains_of_parts _ _ "undefined variable \"" "\""
      simp [expressions.UndefinedVariable.errorMsg, String.data_append]
  · intro hm
    unfold expressions.Config.GetVariable
    rw [h, hm]
    rfl

/-- C5 witness: with the lax default replaced by an explicit strict/lax
pair at the concrete name "missing". -/
theorem getVariable_undefined_policy_witness :
    ((expressions.Config.mk (fun _ => none) .strictMode .strictMode).GetVariable
        (fun _ => none) "missing" = .error ⟨"missing"⟩ ∧
      strContains (expressions.UndefinedVariable.errorMsg ⟨"missing"⟩)
        "undefined variable" = true) ∧
    (expressions.Config.mk (fun _ => none) .strictMode .laxMode).GetVariable
      (fun _ => none) "missing" = .ok .nil := by
  have h1 := getVariable_undefined_policy
    (expressions.Config.mk (fun _ => none) .strictMode .strictMode)
    (fun _ => none) "missing" rfl
  have h2 := getVariable_undefined_policy
    (expressions.Config.mk (fun _ => none) .strictMode .laxMode)
    (fun _ => none) "missing" rfl
  have h1s := h1.1 rfl
  exact ⟨⟨h1s.1, h1s.2.1⟩, h2.2 rfl⟩

/-- C6: looking up a filter name not present in the registry fails under
the strict policy, and yields the identity transform under the lax policy,
so the piped value passes through unchanged. -/
theorem getFilter_undefined_policy (c : expressions.Config) (name : String)
    (h : c.filters name = none) :
    (c.FilterErrorMode = .strictMode →
      c.GetFilter name = .error ⟨name⟩) ∧
    (c.FilterErrorMode = .laxMode →
      c.GetFilter name = .ok expressions.identityFilter ∧
      ∀ v : values.GoValue, expressions.identityFilter v = v) := by
  constructor
  · intro hm
    unfold expressions.Config.GetFilter
    rw [h, hm]
    rfl
  · intro hm
    refine ⟨?_, fun v => rfl⟩
    unfold expressions.Config.GetFilter
    rw [h, hm]
    rfl

/-- C6 witness at the concrete name "upcase" and value 7. -/
theorem getFilter_undefined_policy_witness :
    (expressions.Config.mk (fun _ => none) .strictMode .laxMode).GetFilter
      "upcase" = .error ⟨"upcase"⟩ ∧
    ((expressions.Config.mk (fun _ => none) .laxMode .laxMode).GetFilter
      "upcase" = .ok expressions.identityFilter ∧
     expressions.identityFilter (.int 7) = .int 7) := by
  have h1 := getFilter_undefined_policy
    (expressions.Config.mk (fun _ => none) .strictMode .laxMode) "upcase" rfl
  have h2 := getFilter_undefined_policy
    (expressions.Config.mk (fun _ => none) .laxMode .laxMode) "upcase" rfl
  have h2s := h2.2 rfl
  exact ⟨h1.1 rfl, h2s.1, h2s.2 (.int 7)⟩

/-- C9: the default expression configuration is asymmetric: strict for
filters, lax for variables; so by default an unbound variable yields nil
while an unregistered filter fails. -/
theorem newConfig_asymmetric :
    expressions.NewConfig.FilterErrorMode = .strictMode ∧
    expressions.NewConfig.VariableErrorMode = .laxMode ∧
    (∀ (bnd : expressions.Bindings) (name : String), bnd name = none →
      expressions.NewConfig.GetVariable bnd name = .ok .nil) ∧
    (∀ name : String, expressions.NewConfig.GetFilter name = .error ⟨name⟩) := by
  refine ⟨rfl, rfl, ?_, ?_⟩
  · intro bnd name h
    unfold expressions.Config.GetVariable
    rw [h]
    rfl
  · intro name
    rfl

/-- C9 witness at concrete inputs. -/
theorem newConfig_asymmetric_witness :
    expressions.NewConfig.GetVariable (fun _ => none) "x" = .ok .nil ∧
    expressions.NewConfig.GetFilter "upcase" = .error ⟨"upcase"⟩ := by
  exact ⟨newConfig_asymmetric.2.2.1 (fun _ => none) "x" rfl,
    newConfig_asymmetric.2.2.2 "upcase"⟩

/-! ## Parser helper lemmas -/

theorem runTokens_append (cfg : parser.Config) (l1 l2 : List parser.Token)
    (s : parser.PState) :
    parser.runTokens cfg s (l1 ++ l2) =
      (match parser.runTokens cfg s l1 with
       | .ok s1 => parser.runTokens cfg s1 l2
       | .error e => .error e) := by
  induction l1 generalizing s with
  | nil => simp [parser.runTokens]
  | cons t ts ih =>
    simp only [List.cons_append, parser.runTokens]
    cases parser.step cfg s t with
    | error e => rfl
    | ok s1 => exact ih s1

theorem step_inComment (cfg : parser.Config) (s : parser.PState) (t : parser.Token)
    (hc : s.inComment = true)
    (ht : ¬(t.type = .tag ∧ t.name = "endcomment")) :
    parser.step cfg s t = .ok s := by
  simp [parser.step, parser.stepComment, hc, ht]

theorem runTokens_inComment (cfg : parser.Config) (s : parser.PState)
    (ts : List parser.Token) (hc : s.inComment = true)
    (h : ∀ t ∈ ts, ¬(t.type = .tag ∧ t.name = "endcomment")) :
    parser.runTokens cfg s ts = .ok s := by
  induction ts with
  | nil => rfl
  | cons t rest ih =>
    rw [parser.runTokens, step_inComment cfg s t hc (h t (List.mem_cons_self t rest))]
    exact ih (fun u hu => h u (List.mem_cons_of_mem t hu))

theorem step_inRaw (cfg : parser.Config) (s : parser.PState) (t : parser.Token)
    (sl : List String) (hc : s.inComment = false) (hr : s.inRaw = true)
    (hrt : s.rawTag = some sl)
    (ht : ¬(t.type = .tag ∧ t.name = "endraw")) :
    parser.step cfg s t = .ok { s with rawTag := some (sl ++ [t.source]) } := by
  simp [parser.step, parser.stepRaw, hc, hr, hrt, ht]

theorem runTokens_inRaw (cfg : parser.Config) (s : parser.PState)
    (ts : List parser.Token) (sl : List String)
    (hc : s.inComment = false) (hr : s.inRaw = true) (hrt : s.rawTag = some sl)
    (h : ∀ t ∈ ts, ¬(t.type = .tag ∧ t.name = "endraw")) :
    parser.runTokens cfg s ts =
      .ok { s with rawTag := some (sl ++ ts.map parser.Token.source) } := by
  induction ts generalizing s sl with
  | nil =>
    rw [parser.runTokens]
    obtain ⟨a1, a2, a3, a4, a5, a6, a7⟩ := s
    simp only at hrt
    simp [hrt]
  | cons t rest ih =>
    rw [parser.runTokens, step_inRaw cfg s t sl hc hr hrt (h t (List.mem_cons_self t rest))]
    show parser.runTokens cfg { s with rawTag := some (sl ++ [t.source]) } rest = _
    rw [ih { s with rawTag := some (sl ++ [t.source]) } (sl ++ [t.source]) hc hr rfl
      (fun u hu => h u (List.mem_cons_of_mem t hu))]
    simp

/-- C1: between a "comment" tag and the next "endcomment" tag the parser
state is left untouched (no AST nodes are produced, whatever the tokens
are), and between a "raw" tag and the next "endraw" tag all tokens
contribute exactly their raw source text, in order, as the slices of a
single Raw node. -/
theorem comment_raw_suppression
    (cfg : parser.Config) (s : parser.PState)
    (hc : s.inComment = false) (hr : s.inRaw = false)
    (csC csR : parser.BlockSyntax)
    (hgC : cfg.grammar "comment" = some csC) (hgR : cfg.grammar "raw" = some csR)
    (tokC tokEC tokR tokER : parser.Token)
    (htC : tokC.type = .tag ∧ tokC.name = "comment")
    (htEC : tokEC.type = .tag ∧ tokEC.name = "endcomment")
    (htR : tokR.type = .tag ∧ tokR.name = "raw")
    (htER : tokER.type = .tag ∧ tokER.name = "endraw")
    (mid1 mid2 : List parser.Token)
    (h1 : ∀ t ∈ mid1, ¬(t.type = .tag ∧ t.name = "endcomment"))
    (h2 : ∀ t ∈ mid2, ¬(t.type = .tag ∧ t.name = "endraw")) :
    parser.runTokens cfg s (tokC :: mid1 ++ [tokEC]) = .ok s ∧
    parser.runTokens cfg s (tokR :: mid2 ++ [tokER]) =
      .ok { s with acc := s.acc ++ [.raw (mid2.map parser.Token.source)],
                   rawTag := some (mid2.map parser.Token.source) } := by
  obtain ⟨a1, a2, a3, a4, a5, a6, a7⟩ := s
  simp only at hc hr
  subst hc hr
  constructor
  · have hstep1 : parser.step cfg ⟨a1, a2, a3, a4, a5, false, false⟩ tokC =
        .ok ⟨a1, a2, a3, a4, a5, true, false⟩ := by
      simp [parser.step, parser.stepKnownTag, htC.1, htC.2, hgC]
    have hmid : parser.runTokens cfg ⟨a1, a2, a3, a4, a5, true, false⟩ mid1 =
        .ok ⟨a1, a2, a3, a4, a5, true, false⟩ :=
      runTokens_inComment cfg _ mid1 rfl h1
    have hend : parser.step cfg ⟨a1, a2, a3, a4, a5, true, false⟩ tokEC =
        .ok ⟨a1, a2, a3, a4, a5, false, false⟩ := by
      simp [parser.step, parser.stepComment, htEC.1, htEC.2]
    show parser.runTokens cfg _ (tokC :: (mid1 ++ [tokEC])) = _
    rw [parser.runTokens, hstep1]
    show parser.runTokens cfg _ (mid1 ++ [tokEC]) = _
    rw [runTokens_append, hmid]
    show parser.runTokens cfg _ [tokEC] = _
    rw [parser.runTokens, hend]
    rfl
  · have hstepR : parser.step cfg ⟨a1, a2, a3, a4, a5, false, false⟩ tokR =
        .ok ⟨a1, a2, a3, a4, some [], false, true⟩ := by
      simp [parser.step, parser.stepKnownTag, htR.1, htR.2, hgR]
    have hmidR : parser.runTokens cfg ⟨a1, a2, a3, a4, some [], false, true⟩ mid2 =
        .ok ⟨a1, a2, a3, a4, some (mid2.map parser.Token.source), false, true⟩ := by
      have := runTokens_inRaw cfg ⟨a1, a2, a3, a4, some [], false, true⟩ mid2 []
        rfl rfl rfl h2
      simpa using this
    have hendR : parser.step cfg
        ⟨a1, a2, a3, a4, some (mid2.map parser.Token.source), false, true⟩ tokER =
        .ok ⟨a1 ++ [.raw (mid2.map parser.Token.source)], a2, a3, a4,
          some (mid2.map parser.Token.source), false, false⟩ := by
      simp [parser.step, parser.stepRaw, htER.1, htER.2]
    show parser.runTokens cfg _ (tokR :: (mid2 ++ [tokER])) = _
    rw [parser.runTokens, hstepR]
    show parser.runTokens cfg _ (mid2 ++ [tokER]) = _
    rw [runTokens_append, hmidR]
    show parser.runTokens cfg _ [tokER] = _
    rw [parser.runTokens, hendR]
    rfl

/-- C1 witness: a comment region hiding an if tag leaves the initial state
untouched, and a raw region collects its tokens' source text into one Raw
node. -/
theorem comment_raw_suppression_witness :
    parser.runTokens parser.stdConfig parser.initState
      (parser.tagTok "comment" "" :: [parser.tagTok "if" "x"] ++
        [parser.tagTok "endcomment" ""]) = .ok parser.initState ∧
    parser.runTokens parser.stdConfig parser.initState
      (parser.tagTok "raw" "" :: [parser.textTok "abc"] ++
        [parser.tagTok "endraw" ""]) =
      .ok { parser.initState with
        acc := parser.initState.acc ++
          [.raw ([parser.textTok "abc"].map parser.Token.source)]
        rawTag := some ([parser.textTok "abc"].map parser.Token.source) } := by
  exact comment_raw_suppression parser.stdConfig parser.initState rfl rfl
    ⟨"comment", true, false, false, false, []⟩
    ⟨"raw", true, false, false, false, []⟩
    rfl rfl
    (parser.tagTok "comment" "") (parser.tagTok "endcomment" "")
    (parser.tagTok "raw" "") (parser.tagTok "endraw" "")
    ⟨rfl, rfl⟩ ⟨rfl, rfl⟩ ⟨rfl, rfl⟩ ⟨rfl, rfl⟩
    [parser.tagTok "if" "x"] [parser.textTok "abc"]
    (by decide) (by decide)

theorem okStack_replace (st : List parser.Frame) (pb pb' : parser.OpenBlock)
    (h : parser.okStack st (some pb)) : parser.okStack st (some pb') := by
  cases st with
  | nil => trivial
  | cons f rest => exact ⟨rfl, h.2⟩

theorem stepComment_okStack (s s1 : parser.PState) (t : parser.Token)
    (h : parser.stepComment s t = .ok s1) (hs : parser.okStack s.stack s.bn) :
    parser.okStack s1.stack s1.bn := by
  unfold parser.stepComment at h
  split at h <;> (injection h with h; subst h; exact hs)

theorem stepRaw_okStack (s s1 : parser.PState) (t : parser.Token)
    (h : parser.stepRaw s t = .ok s1) (hs : parser.okStack s.stack s.bn) :
    parser.okStack s1.stack s1.bn := by
  unfold parser.stepRaw at h
  split at h <;> split at h <;> (injection h with h; subst h; exact hs)

theorem stepObj_okStack (cfg : parser.Config) (s s1 : parser.PState) (t : parser.Token)
    (h : parser.stepObj cfg s t = .ok s1) (hs : parser.okStack s.stack s.bn) :
    parser.okStack s1.stack s1.bn := by
  unfold parser.stepObj at h
  split at h
  · exact Except.noConfusion h
  · injection h with h; subst h; exact hs

theorem stepClause_okStack (s s1 : parser.PState) (t : parser.Token)
    (h : parser.stepClause s t = .ok s1) (hs : parser.okStack s.stack s.bn) :
    parser.okStack s1.stack s1.bn := by
  unfold parser.stepClause at h
  split at h
  · exact Except.noConfusion h
  · rename_i pb heq
    split at h <;>
      (injection h with h; subst h; exact okStack_replace _ _ _ (heq ▸ hs))

theorem stepBlockEnd_okStack (s s1 : parser.PState) (t : parser.Token)
    (h : parser.stepBlockEnd s t = .ok s1) (hs : parser.okStack s.stack s.bn) :
    parser.okStack s1.stack s1.bn := by
  unfold parser.stepBlockEnd at h
  split at h
  · exact Except.noConfusion h
  · rename_i f rest heq1
    split at h
    · exact Except.noConfusion h
    · rename_i pb heq2
      injection h with h
      subst h
      have hs2 : parser.okStack (f :: rest) s.bn := heq1 ▸ hs
      exact hs2.2

theorem stepKnownTag_okStack (s s1 : parser.PState) (t : parser.Token)
    (cs : parser.BlockSyntax)
    (h : parser.stepKnownTag s t cs = .ok s1) (hs : parser.okStack s.stack s.bn) :
    parser.okStack s1.stack s1.bn := by
  unfold parser.stepKnownTag at h
  split_ifs at h
  · injection h with h; subst h; exact hs
  · injection h with h; subst h; exact hs
  · injection h with h; subst h; exact ⟨rfl, hs⟩
  · exact stepClause_okStack s s1 t h hs
  · exact stepBlockEnd_okStack s s1 t h hs

theorem step_okStack (cfg : parser.Config) (s s1 : parser.PState) (t : parser.Token)
    (h : parser.step cfg s t = .ok s1) (hs : parser.okStack s.stack s.bn) :
    parser.okStack s1.stack s1.bn := by
  unfold parser.step at h
  split_ifs at h
  · exact stepComment_okStack s s1 t h hs
  · exact stepRaw_okStack s s1 t h hs
  · exact stepObj_okStack cfg s s1 t h hs
  · injection h with h; subst h; exact hs
  · split at h
    · exact stepKnownTag_okStack s s1 t _ h hs
    · injection h with h; subst h; exact hs

theorem runTokens_okStack (cfg : parser.Config) (ts : List parser.Token)
    (s s1 : parser.PState) (h : parser.runTokens cfg s ts = .ok s1)
    (hs : parser.okStack s.stack s.bn) : parser.okStack s1.stack s1.bn := by
  induction ts generalizing s with
  | nil =>
    rw [parser.runTokens] at h
    injection h with h
    subst h
    exact hs
  | cons t rest ih =>
    rw [parser.runTokens] at h
    cases hstep : parser.step cfg s t with
    | error e => rw [hstep] at h; exact Except.noConfusion h
    | ok s2 =>
      rw [hstep] at h
      exact ih s2 h (step_okStack cfg s s2 t hstep hs)

/-- C2: when the token stream ends with any block still open (active block
node set, or frame stack nonempty), parsing fails with the error
"unterminated <tag> block" naming the innermost unclosed block's tag, and
no AST root is returned. -/
theorem parse_unterminated_block (cfg : parser.Config) (tokens : List parser.Token)
    (s : parser.PState)
    (h : parser.runTokens cfg parser.initState tokens = .ok s)
    (hopen : s.bn ≠ none ∨ s.stack ≠ []) :
    s.bn ≠ none ∧ ∀ pb : parser.OpenBlock, s.bn = some pb →
      cfg.parseTokens tokens =
        .error ("unterminated \"" ++ pb.tok.name ++ "\" block") := by
  have hok : parser.okStack s.stack s.bn :=
    runTokens_okStack cfg tokens parser.initState s h trivial
  have hbn : s.bn ≠ none := by
    rcases hopen with h1 | h1
    · exact h1
    · cases hst : s.stack with
      | nil => exact absurd hst h1
      | cons f rest =>
        rw [hst] at hok
        intro hn
        rw [hn] at hok
        simpa using hok.1
  refine ⟨hbn, fun pb hpb => ?_⟩
  unfold parser.Config.parseTokens
  rw [h]
  simp [parser.finishParse, hpb]

/-- C2 witness: an if tag with no endif. -/
theorem parse_unterminated_block_witness :
    parser.Config.parseTokens parser.stdConfig [parser.tagTok "if" "x"] =
      .error "unterminated \"if\" block" := by
  have h := parse_unterminated_block parser.stdConfig [parser.tagTok "if" "x"]
    ⟨[], some ⟨"if", true, false, false, false, []⟩,
      some ⟨parser.tagTok "if" "x", [], [], none⟩,
      [⟨none, none, []⟩], none, false, false⟩
    (by rfl) (Or.inl (by simp))
  exact h.2 ⟨parser.tagTok "if" "x", [], [], none⟩ rfl

/-- C3 (amended): a registered tag that requires a parent, seen while the
enclosing block is absent or not among its allowed parents, fails the
parse immediately with an error naming the tag and its required parent tag
set; when an enclosing block exists the message also names it, and when
none exists the parent mention is simply omitted. -/
theorem clause_requires_parent_error (cfg : parser.Config)
    (pre rest : List parser.Token) (s : parser.PState) (t : parser.Token)
    (cs : parser.BlockSyntax)
    (hpre : parser.runTokens cfg parser.initState pre = .ok s)
    (hc : s.inComment = false) (hr : s.inRaw = false)
    (ht : t.type = .tag) (hg : cfg.grammar t.name = some cs)
    (hnc : t.name ≠ "comment") (hnr : t.name ≠ "raw")
    (hreq : cs.requiresParent = true)
    (hbad : ∀ sd1, s.sd = some sd1 → cs.canHaveParent sd1 = false) :
    cfg.parseTokens (pre ++ t :: rest) =
      .error (t.name ++ " not inside " ++ String.intercalate " or " cs.parentTags ++
        (match s.sd with
         | none => ""
         | some sd1 => "; immediate parent is " ++ sd1.tagName)) := by
  have hstep : parser.step cfg s t =
      .error (t.name ++ " not inside " ++ String.intercalate " or " cs.parentTags ++
        (match s.sd with
         | none => ""
         | some sd1 => "; immediate parent is " ++ sd1.tagName)) := by
    rcases hsd : s.sd with _ | sd1
    · simp [parser.step, parser.stepKnownTag, hc, hr, ht, hg, hnc, hnr, hreq, hsd]
    · have hch := hbad sd1 hsd
      simp [parser.step, parser.stepKnownTag, hc, hr, ht, hg, hnc, hnr, hreq, hsd, hch]
  unfold parser.Config.parseTokens
  rw [runTokens_append, hpre]
  show (match parser.runTokens cfg s (t :: rest) with
        | .error e => Except.error e
        | .ok s2 => parser.finishParse s2) = _
  rw [parser.runTokens, hstep]

/-- C3 counterexample: a bare else (no enclosing block) produces the error
"else not inside case or if or unless", which names the tag and the
required parent set but contains no "none" marker for the absent parent. -/
theorem clause_no_parent_names_no_none :
    parser.Config.parseTokens parser.stdConfig [parser.tagTok "else" ""] =
      .error "else not inside case or if or unless" ∧
    strContains "else not inside case or if or unless" "none" = false := by
  exact ⟨rfl, by decide⟩

/-- C3 witness: an else directly inside a for block names the offending
tag, the required parents, and the actual immediate parent. -/
theorem clause_requires_parent_error_witness :
    parser.Config.parseTokens parser.stdConfig
      (parser.tagTok "for" "x" :: parser.tagTok "else" "" :: []) =
      .error "else not inside case or if or unless; immediate parent is for" := by
  have h := clause_requires_parent_error parser.stdConfig
    [parser.tagTok "for" "x"] [] 
    ⟨[], some ⟨"for", true, false, false, false, []⟩,
      some ⟨parser.tagTok "for" "x", [], [], none⟩,
      [⟨none, none, []⟩], none, false, false⟩
    (parser.tagTok "else" "")
    ⟨"else", false, true, false, true, ["case", "if", "unless"]⟩
    (by rfl) rfl rfl rfl rfl (by decide) (by decide) rfl
    (by
      intro sd1 hsd
      injection hsd with h1
      subst h1
      decide)
  exact h

/-- Helper for C4: a plain Tag node with no registered compiler aborts the
compilation of its whole sequence with an "undefined tag" error, once the
nodes before it compile. -/
theorem compileList_undefined_tag (reg : parser.CompilerReg) (t : parser.Token)
    (l1 l2 : List parser.ASTNode) (hreg : reg t.name = none)
    (hok : ∀ n ∈ l1, parser.compileAST reg n = .ok ()) :
    parser.compileList reg (l1 ++ parser.ASTNode.tag t :: l2) =
      .error ("undefined tag \"" ++ t.name ++ "\"") := by
  induction l1 with
  | nil => simp [parser.compileList, parser.compileAST, hreg]
  | cons n ns ih =>
    have h1 := hok n (List.mem_cons_self n ns)
    rw [List.cons_append, parser.compileList, h1]
    exact ih (fun m hm => hok m (List.mem_cons_of_mem n hm))

/-- C4: a tag token whose name is not registered in the grammar parses
fine, appending a plain Tag node; the name is only checked at compile
time, where a tag with no registered compiler is an "undefined tag" error
aborting the compilation of the whole template. -/
theorem unregistered_tag_deferred (cfg : parser.Config) (s : parser.PState)
    (t : parser.Token) (hc : s.inComment = false) (hr : s.inRaw = false)
    (ht : t.type = .tag) (hg : cfg.grammar t.name = none) :
    parser.step cfg s t = .ok { s with acc := s.acc ++ [.tag t] } ∧
    ∀ (reg : parser.CompilerReg) (l1 l2 : List parser.ASTNode),
      reg t.name = none →
      (∀ n ∈ l1, parser.compileAST reg n = .ok ()) →
      parser.compileAST reg (.seq (l1 ++ .tag t :: l2)) =
        .error ("undefined tag \"" ++ t.name ++ "\"") := by
  constructor
  · simp [parser.step, hc, hr, ht, hg]
  · intro reg l1 l2 hreg hok
    show parser.compileList reg (l1 ++ .tag t :: l2) = _
    exact compileList_undefined_tag reg t l1 l2 hreg hok

/-- C4 witness: parsing an undefined_tag token emits a Tag node; compiling
a sequence holding it under an empty compiler registry reports the
undefined tag. -/
theorem unregistered_tag_deferred_witness :
    parser.step parser.stdConfig parser.initState
      (parser.tagTok "undefined_tag" "x") =
      .ok { parser.initState with
        acc := [.tag (parser.tagTok "undefined_tag" "x")] } ∧
    parser.compileAST (fun _ => none)
      (.seq [.text (parser.textTok "a"),
        .tag (parser.tagTok "undefined_tag" "x")]) =
      .error "undefined tag \"undefined_tag\"" := by
  have h := unregistered_tag_deferred parser.stdConfig parser.initState
    (parser.tagTok "undefined_tag" "x") rfl rfl rfl rfl
  refine ⟨h.1, ?_⟩
  have h2 := h.2 (fun _ => none) [.text (parser.textTok "a")] [] rfl
    (by
      intro n hn
      rw [List.mem_singleton] at hn
      subst hn
      rfl)
  exact h2

/-- C7: with default delimiters, a single tag construct scans to exactly
one Tag token carrying its name and whitespace-trimmed arguments, and a
single object construct scans to exactly one Object token (no name) with
the whitespace-trimmed interior as arguments. -/
theorem scan_single_tag_and_object :
    parser.Scan "\x7b% tag arg %\x7d" [] =
      [{ type := .tag, name := "tag", args := "arg",
         source := "\x7b% tag arg %\x7d", trimLeft := false, trimRight := false }] ∧
    parser.Scan "\x7b\x7b expr \x7d\x7d" [] =
      [{ type := .obj, name := "", args := "expr",
         source := "\x7b\x7b expr \x7d\x7d", trimLeft := false, trimRight := false }] := by
  exact ⟨rfl, rfl⟩

/-- C8: a 4-element delimiter override fully replaces the defaults: the
custom object construct scans to exactly one Object token with Args
"expr", while the default tag and object markers scan as plain literal
Text tokens. -/
theorem scan_custom_delims_replace_defaults :
    parser.Scan "OBJECT@LEFT expr OBJECT#RIGHT"
      ["OBJECT@LEFT", "OBJECT#RIGHT", "TAG*LEFT", "TAG!RIGHT"] =
      [{ type := .obj, name := "", args := "expr",
         source := "OBJECT@LEFT expr OBJECT#RIGHT",
         trimLeft := false, trimRight := false }] ∧
    parser.Scan "\x7b\x7b expr \x7d\x7d"
      ["OBJECT@LEFT", "OBJECT#RIGHT", "TAG*LEFT", "TAG!RIGHT"] =
      [{ type := .text, name := "", args := "", source := "\x7b\x7b expr \x7d\x7d",
         trimLeft := false, trimRight := false }] ∧
    parser.Scan "\x7b% tag arg %\x7d"
      ["OBJECT@LEFT", "OBJECT#RIGHT", "TAG*LEFT", "TAG!RIGHT"] =
      [{ type := .text, name := "", args := "", source := "\x7b% tag arg %\x7d",
         trimLeft := false, trimRight := false }] := by
  exact ⟨rfl, rfl, rfl⟩
